import Mathlib

set_option maxHeartbeats 1000000

/-!
Shallow embedding of polly's dependence analysis (lib/Analysis/Dependences.cpp).

ISL union sets and union maps are modelled by their membership semantics as
finite lists of points (a point is a tuple-space name plus an integer
coordinate vector); list membership is the set semantics, so two lists denote
the same relation iff they have the same members.  The operations of the
external relation-algebra engine used by the pass (union, intersect-domain,
intersect-range, apply-domain, apply-range, deltas, coalesce,
detect-equalities, lexicographic comparison, emptiness and the dataflow
primitive compute_flow) are modelled by their documented set semantics;
coalesce and detect_equalities canonicalise the internal representation and
preserve the denoted set, so on the set level they are the identity.
-/

/-- A point of an ISL (union) set: a tuple-space name and integer coordinates. -/
structure Point where
  space : String
  coords : List Int
deriving DecidableEq, Repr

/-- An ISL union set, by its members. -/
abbrev UnionSet := List Point

/-- An ISL union map, by its member pairs. -/
abbrev UnionMap := List (Point × Point)

/-- Strict lexicographic order on coordinate vectors (false on shape mismatch,
mirroring that ISL only compares vectors of one space). -/
def lexLt : List Int → List Int → Bool
  | [], [] => false
  | a :: l1, b :: l2 => decide (a < b) || (decide (a = b) && lexLt l1 l2)
  | _, _ => false

/-- Non-strict lexicographic order on coordinate vectors. -/
def lexLe : List Int → List Int → Bool
  | [], [] => true
  | a :: l1, b :: l2 => decide (a < b) || (decide (a = b) && lexLe l1 l2)
  | _, _ => false

/-- A vector is lexicographically non-positive: it is all zero, or its first
nonzero coordinate is negative.  This is the specification-side notion used by
the legality condition. -/
def lexNonPosB : List Int → Bool
  | [] => true
  | a :: l1 => decide (a < 0) || (decide (a = 0) && lexNonPosB l1)

/-- isl_map_intersect_domain. -/
def intersectDomain (m : UnionMap) (s : UnionSet) : UnionMap :=
  m.filter (fun pr => decide (pr.1 ∈ s))

/-- isl_union_map_intersect_range. -/
def intersectRange (m : UnionMap) (s : UnionSet) : UnionMap :=
  m.filter (fun pr => decide (pr.2 ∈ s))

/-- isl_union_map_apply_range: pairs (a, c) such that (a, b) is in the first
map and (b, c) in the second. -/
def applyRange (m n : UnionMap) : UnionMap :=
  m.flatMap (fun pr => (n.filter (fun q => decide (q.1 = pr.2))).map (fun q => (pr.1, q.2)))

/-- isl_union_map_apply_domain: pairs (b, c) such that (a, c) is in the first
map and (a, b) in the second. -/
def applyDomain (m n : UnionMap) : UnionMap :=
  m.flatMap (fun pr => (n.filter (fun q => decide (q.1 = pr.1))).map (fun q => (q.2, pr.2)))

/-- isl_union_map_deltas: for each pair whose domain and range lie in the same
space, the coordinatewise difference range minus domain. -/
def deltas (m : UnionMap) : UnionSet :=
  (m.filter (fun pr =>
      decide (pr.1.space = pr.2.space) && decide (pr.1.coords.length = pr.2.coords.length))).map
    (fun pr => Point.mk pr.1.space (List.zipWith (fun x y => x - y) pr.2.coords pr.1.coords))

/-- isl_union_set_extract_set: the members lying in the given space. -/
def extractSet (u : UnionSet) (sp : String) (n : Nat) : UnionSet :=
  u.filter (fun p => decide (p.space = sp) && decide (p.coords.length = n))

/-- isl_union_map_coalesce: canonicalises the representation, preserving the
denoted set; on the set level it is the identity. -/
def coalesce (m : UnionMap) : UnionMap := m

/-- isl_union_map_detect_equalities: canonicalises constraints, preserving the
denoted set; on the set level it is the identity. -/
def detectEqualities (m : UnionMap) : UnionMap := m

/-- Instance q is scheduled strictly before instance p: both have schedule
images in a common scattering space with the image of q lexicographically
smaller. -/
def schedBefore (sched : UnionMap) (q p : Point) : Bool :=
  sched.any (fun a => decide (a.1 = q) && sched.any (fun b =>
    decide (b.1 = p) && decide (a.2.space = b.2.space) && lexLt a.2.coords b.2.coords))

/-- One source class of isl_union_map_compute_flow: the pairs (source instance,
sink instance) accessing one location with the source scheduled strictly before
the sink and no intervening killing (must) access to that location. -/
def flowDeps (sink source kill sched : UnionMap) : UnionMap :=
  source.flatMap (fun w =>
    (sink.filter (fun r =>
      decide (r.2 = w.2) && schedBefore sched w.1 r.1 &&
      !(kill.any (fun v =>
        decide (v.2 = r.2) && schedBefore sched w.1 v.1 && schedBefore sched v.1 r.1)))).map
      (fun r => (w.1, r.1)))

/-- isl_union_map_compute_flow(sink, must_source, may_source, schedule):
first component the must-dependences (last must-source before each sink
instance), second the may-dependences (may-sources not superseded by a later
must-source). -/
def computeFlow (sink must may sched : UnionMap) : UnionMap × UnionMap :=
  (flowDeps sink must must sched, flowDeps sink may must sched)

/-- Access kinds.  Modelled from the spec: the MemoryAccess type of the Scop
Model (polly/ScopInfo.h, not under src) has Kind in Read, MustWrite, MayWrite. -/
inductive AccKind where
  | read
  | mustWrite
  | mayWrite
deriving DecidableEq, Repr

/-- Modelled from the spec: a memory access of the Scop Model (polly/ScopInfo.h,
not under src): a kind and an affine access relation from iteration points to
memory locations. -/
structure MemAccess where
  kind : AccKind
  accessRelation : UnionMap
deriving DecidableEq, Repr

/-- Modelled from the spec: MemoryAccess::isRead holds exactly for Read
accesses. -/
def MemAccess.isRead (a : MemAccess) : Bool := decide (a.kind = AccKind.read)

/-- An ISL map together with its range space (tuple name and dimension), as
carried by isl_map_get_space / isl_space_range in the source. -/
structure IslMap where
  rangeSpace : String
  rangeDim : Nat
  pairs : UnionMap
deriving DecidableEq, Repr

/-- A statement of the Scop Model: iteration domain, memory accesses, current
scattering (schedule), and the symbolic-parameter space its relations refer
to. -/
structure ScopStmt where
  name : String
  domain : UnionSet
  accesses : List MemAccess
  scattering : IslMap
  paramSpace : List String
deriving DecidableEq, Repr

/-- The Scop Model: its shared symbolic-parameter space (S.getParamSpace())
and its statements. -/
structure Scop where
  paramSpace : List String
  stmts : List ScopStmt
deriving DecidableEq, Repr

/-- The four union relations built by Dependences::collectInfo. -/
structure CollectedInfo where
  read : UnionMap
  write : UnionMap
  mayWrite : UnionMap
  schedule : UnionMap
deriving DecidableEq, Repr

/-- Dependences::collectInfo: seeds all four unions empty (in the scop's
parameter space, which does not affect membership), then for every statement
intersects each access relation with the statement's domain and adds it to
Read when the access is a read and to Write otherwise; the MayWrite union is
never added to.  The statement's scattering is added to Schedule. -/
def collectInfo (S : Scop) : CollectedInfo :=
  CollectedInfo.mk
    (S.stmts.flatMap (fun st =>
      (st.accesses.filter (fun a => a.isRead)).flatMap
        (fun a => intersectDomain a.accessRelation st.domain)))
    (S.stmts.flatMap (fun st =>
      (st.accesses.filter (fun a => !a.isRead)).flatMap
        (fun a => intersectDomain a.accessRelation st.domain)))
    []
    (S.stmts.flatMap (fun st => st.scattering.pairs))

/-- Dependences::calculateDependences: collect the unions, run the dataflow
twice (sink Read with must-sources Write and may-sources MayWrite giving RAW;
sink Write with must-sources Write and may-sources Read giving WAW and WAR),
and coalesce the three results.  Returned as (RAW, WAR, WAW). -/
def calculateDependences (S : Scop) : UnionMap × UnionMap × UnionMap :=
  let info := collectInfo S
  let raw := (computeFlow info.read info.write info.mayWrite info.schedule).1
  let fl2 := computeFlow info.write info.write info.read info.schedule
  (coalesce raw, coalesce fl2.2, coalesce fl2.1)

/-- The cached dependence fields of the pass: the three nullable pointers RAW,
WAR, WAW (none models the C NULL). -/
structure DepState where
  raw : Option UnionMap
  war : Option UnionMap
  waw : Option UnionMap
deriving DecidableEq, Repr

/-- Dependences::releaseMemory: frees the three relations and resets all
fields to NULL. -/
def releaseMemoryState (_s : DepState) : DepState := DepState.mk none none none

/-- Dependences::runOnScop: releaseMemory (discarding any previous cache)
followed by calculateDependences, which fills all three fields. -/
def runOnScopState (S : Scop) (s : DepState) : DepState :=
  let _cleared := releaseMemoryState s
  let c := calculateDependences S
  DepState.mk (some c.1) (some c.2.1) (some c.2.2)

/-- NULL-propagating union: ISL returns NULL when either argument is NULL. -/
def unionO : Option UnionMap → Option UnionMap → Option UnionMap
  | some a, some b => some (a ++ b)
  | _, _ => none

/-- Modelled from the spec: dependence-kind bitmask values of the enum in
polly/Dependences.h (not under src); the spec describes getDependences as
dispatching the three kinds through a bitmask. -/
def TYPE_RAW : Nat := 1

/-- Modelled from the spec: see TYPE_RAW. -/
def TYPE_WAR : Nat := 2

/-- Modelled from the spec: see TYPE_RAW. -/
def TYPE_WAW : Nat := 4

/-- Modelled from the spec: all three dependence kinds. -/
def TYPE_ALL : Nat := 7

/-- Dependences::getDependences: starts from the empty union in the space of
the cached RAW relation (NULL-propagating when the cache is released), unions
in each requested kind, then coalesces and detects equalities. -/
def getDependencesSt (s : DepState) (kinds : Nat) : Option UnionMap :=
  let deps0 : Option UnionMap := s.raw.map (fun _ => ([] : UnionMap))
  let deps1 := if kinds &&& TYPE_RAW ≠ 0 then unionO deps0 s.raw else deps0
  let deps2 := if kinds &&& TYPE_WAR ≠ 0 then unionO deps1 s.war else deps1
  let deps3 := if kinds &&& TYPE_WAW ≠ 0 then unionO deps2 s.waw else deps2
  (deps3.map coalesce).map detectEqualities

/-- getDependences as a state-passing query: it reads the cached fields and
never assigns to them, so the resulting state is the input state. -/
def getDependencesRun (s : DepState) (kinds : Nat) : Option UnionMap × DepState :=
  (getDependencesSt s kinds, s)

/-- The per-statement scatterings used by Dependences::isValidScattering: the
candidate override where present, the statement's current scattering
otherwise. -/
def completedScats (S : Scop) (cand : List (String × IslMap)) : List IslMap :=
  S.stmts.map (fun st =>
    match List.lookup st.name cand with
    | some m => m
    | none => st.scattering)

/-- The full schedule union built by isValidScattering from the completed
scatterings. -/
def scatteringUnionOf (S : Scop) (cand : List (String × IslMap)) : UnionMap :=
  (completedScats S cand).flatMap (fun m => m.pairs)

/-- The ScatteringSpace variable of isValidScattering: the range space of the
first statement's (possibly overridden) scattering; NULL when there is no
statement. -/
def scatSpaceOf (S : Scop) (cand : List (String × IslMap)) : Option (String × Nat) :=
  (completedScats S cand).head?.map (fun m => (m.rangeSpace, m.rangeDim))

/-- The delta set of the legality check: the dependences with the completed
schedule applied to both sides, then deltas. -/
def legalityDeltas (S : Scop) (cand : List (String × IslMap)) (deps : UnionMap) : UnionSet :=
  deltas (applyRange (applyDomain deps (scatteringUnionOf S cand)) (scatteringUnionOf S cand))

/-- Dependences::isValidScattering: with the legality check disabled it
returns true immediately.  Otherwise it takes the cached dependences
(TYPE_ALL), applies the completed schedule to both sides, extracts the deltas
in the scattering space, and is valid iff no delta is lexicographically at
most the zero vector.  When the engine propagates NULL (released cache, or no
statement so no scattering space), the final emptiness test yields the ISL
error value, which the surrounding C++ converts to boolean true. -/
def isValidScattering (disabled : Bool) (S : Scop) (cand : List (String × IslMap))
    (s : DepState) : Bool :=
  if disabled then true
  else
    match getDependencesSt s TYPE_ALL, scatSpaceOf S cand with
    | some d, some spn =>
      let ds := extractSet (legalityDeltas S cand d) spn.1 spn.2
      !(ds.any (fun p => lexLe p.coords (List.replicate spn.2 0)))
    | _, _ => true

/-- getCombinedScheduleForSpace: each statement's scattering projected onto
its first dimLevel output dimensions; the projection drops the scattering
tuple name, leaving the anonymous space. -/
def getCombinedScheduleForSpace (S : Scop) (dimLevel : Nat) : UnionMap :=
  S.stmts.flatMap (fun st =>
    st.scattering.pairs.map (fun pr => (pr.1, Point.mk "" (pr.2.coords.take dimLevel))))

/-- The invalid-distance test of Dependences::isParallelDimension: the valid
set is the complement of (LastUnknown minus AllZero) in the anonymous
d-dimensional space, so a distance in that space is invalid iff its first
d - 1 coordinates are zero and it is not the zero vector; a distance in any
other space is never subtracted and is always invalid. -/
def invalidDistance (d : Nat) (p : Point) : Bool :=
  if decide (p.space = "") && decide (p.coords.length = d) then
    ((p.coords.take (d - 1)).all (fun x => decide (x = 0))) &&
      !(p.coords.all (fun x => decide (x = 0)))
  else true

/-- The distance set of isParallelDimension: dependences with the truncated
schedule applied to range then domain, both sides restricted to the tested
scheduling-space subset, then deltas. -/
def parallelDeltas (S : Scop) (deps : UnionMap) (dom : UnionSet) (d : Nat) : UnionSet :=
  let schedule := getCombinedScheduleForSpace S d
  deltas (intersectRange (intersectDomain (applyDomain (applyRange deps schedule) schedule) dom) dom)

/-- Dependences::isParallelDimension: parallel iff the set of invalid
distances is empty.  On a released cache the engine propagates NULL and the
final emptiness test yields the ISL error value, which the surrounding C++
converts to boolean true. -/
def isParallelDimension (S : Scop) (s : DepState) (dom : UnionSet) (d : Nat) : Bool :=
  match getDependencesSt s TYPE_ALL with
  | none => true
  | some deps => ((parallelDeltas S deps dom d).filter (fun p => invalidDistance d p)).isEmpty

/-- A union map is single-valued (an affine function, as every schedule of the
Scop Model is). -/
def isFunctional (m : UnionMap) : Bool :=
  m.all (fun a => m.all (fun b => !(decide (a.1 = b.1)) || decide (a.2 = b.2)))

/-- Every range point of the union map lies in the given space. -/
def allRangeIn (m : UnionMap) (sp : String) (n : Nat) : Bool :=
  m.all (fun pr => decide (pr.2.space = sp) && decide (pr.2.coords.length = n))

/-- Modelled from the spec: a scop exhibits a symbolic-parameter-space
mismatch when some statement's relations reference a parameter space other
than the scop's shared one. -/
def hasSpaceMismatch (S : Scop) : Bool :=
  S.stmts.any (fun st => !(decide (st.paramSpace = S.paramSpace)))

/-- Reassign a statement's parameter-space annotation, leaving its relational
content unchanged. -/
def setStmtParams (g : ScopStmt → List String) (st : ScopStmt) : ScopStmt :=
  ScopStmt.mk st.name st.domain st.accesses st.scattering (g st)

/-- Reassign the parameter-space annotations of a scop and its statements,
leaving all relational content unchanged. -/
def setParamSpaces (S : Scop) (ps : List String) (g : ScopStmt → List String) : Scop :=
  Scop.mk ps (S.stmts.map (setStmtParams g))

/-- States reachable through the public lifecycle of the pass: the freshly
constructed pass (all fields NULL), runOnScop, releaseMemory, and the
read-only getDependences query. -/
inductive Reachable : DepState → Prop
  | init : Reachable (DepState.mk none none none)
  | run (S : Scop) (s : DepState) : Reachable s → Reachable (runOnScopState S s)
  | release (s : DepState) : Reachable s → Reachable (releaseMemoryState s)
  | query (s : DepState) (k : Nat) : Reachable s → Reachable (getDependencesRun s k).2

/-! ## Helper lemmas -/

theorem lexLe_replicate_zero : ∀ v : List Int, lexLe v (List.replicate v.length 0) = lexNonPosB v := by
  intro v
  induction v with
  | nil => rfl
  | cons a l ih => simp [lexLe, lexNonPosB, List.replicate, ih]

theorem lexLt_delta_not_nonpos : ∀ a b : List Int, lexLt a b = true →
    lexNonPosB (List.zipWith (fun x y => x - y) b a) = false := by
  intro a
  induction a with
  | nil =>
    intro b h
    cases b with
    | nil => simp [lexLt] at h
    | cons y l2 => simp [lexLt] at h
  | cons x l1 ih =>
    intro b h
    cases b with
    | nil => simp [lexLt] at h
    | cons y l2 =>
      simp only [lexLt, Bool.or_eq_true, Bool.and_eq_true, decide_eq_true_eq] at h
      rcases h with h1 | ⟨h2, h3⟩
      · simp only [List.zipWith, lexNonPosB, Bool.or_eq_false_iff, Bool.and_eq_false_iff]
        constructor
        · simp; omega
        · left; simp; omega
      · subst h2
        simp only [List.zipWith, lexNonPosB, sub_self]
        simp [ih l2 h3]

theorem mem_intersectDomain (m : UnionMap) (s : UnionSet) (pr : Point × Point) :
    pr ∈ intersectDomain m s ↔ pr ∈ m ∧ pr.1 ∈ s := by
  simp [intersectDomain, List.mem_filter]

theorem mem_intersectRange (m : UnionMap) (s : UnionSet) (pr : Point × Point) :
    pr ∈ intersectRange m s ↔ pr ∈ m ∧ pr.2 ∈ s := by
  simp [intersectRange, List.mem_filter]

theorem mem_applyRange (m n : UnionMap) (x y : Point) :
    (x, y) ∈ applyRange m n ↔ ∃ t : Point, (x, t) ∈ m ∧ (t, y) ∈ n := by
  simp only [applyRange, List.mem_flatMap, List.mem_map, List.mem_filter, decide_eq_true_eq]
  constructor
  · rintro ⟨pr, hpr, q, ⟨hq, hq1⟩, heq⟩
    have hx : pr.1 = x := congrArg Prod.fst heq
    have hy : q.2 = y := congrArg Prod.snd heq
    refine ⟨pr.2, ?_, ?_⟩
    · rw [← hx]; exact hpr
    · rw [← hy, ← hq1]; exact hq
  · rintro ⟨t, h1, h2⟩
    exact ⟨(x, t), h1, (t, y), ⟨h2, rfl⟩, rfl⟩

theorem mem_applyDomain (m n : UnionMap) (x y : Point) :
    (x, y) ∈ applyDomain m n ↔ ∃ q : Point, (q, y) ∈ m ∧ (q, x) ∈ n := by
  simp only [applyDomain, List.mem_flatMap, List.mem_map, List.mem_filter, decide_eq_true_eq]
  constructor
  · rintro ⟨pr, hpr, q, ⟨hq, hq1⟩, heq⟩
    have hx : q.2 = x := congrArg Prod.fst heq
    have hy : pr.2 = y := congrArg Prod.snd heq
    refine ⟨pr.1, ?_, ?_⟩
    · rw [← hy]; exact hpr
    · rw [← hx, ← hq1]; exact hq
  · rintro ⟨q, h1, h2⟩
    exact ⟨(q, y), h1, (q, x), ⟨h2, rfl⟩, rfl⟩

theorem mem_deltas (m : UnionMap) (p : Point) :
    p ∈ deltas m ↔ ∃ pr : Point × Point, pr ∈ m ∧ pr.1.space = pr.2.space ∧
      pr.1.coords.length = pr.2.coords.length ∧
      p = Point.mk pr.1.space (List.zipWith (fun x y => x - y) pr.2.coords pr.1.coords) := by
  simp only [deltas, List.mem_map, List.mem_filter, Bool.and_eq_true, decide_eq_true_eq]
  constructor
  · rintro ⟨pr, ⟨hm, h1, h2⟩, heq⟩
    exact ⟨pr, hm, h1, h2, heq.symm⟩
  · rintro ⟨pr, hm, h1, h2, heq⟩
    exact ⟨pr, ⟨hm, h1, h2⟩, heq.symm⟩

theorem mem_extractSet (u : UnionSet) (sp : String) (n : Nat) (p : Point) :
    p ∈ extractSet u sp n ↔ p ∈ u ∧ p.space = sp ∧ p.coords.length = n := by
  simp [extractSet, List.mem_filter, and_assoc]

theorem schedBefore_spec (sched : UnionMap) (q p : Point) (h : schedBefore sched q p = true) :
    ∃ tq tp : Point, (q, tq) ∈ sched ∧ (p, tp) ∈ sched ∧ tq.space = tp.space ∧
      lexLt tq.coords tp.coords = true := by
  simp only [schedBefore, List.any_eq_true, Bool.and_eq_true, decide_eq_true_eq] at h
  rcases h with ⟨a, ha, h1, b, hb, ⟨⟨h2, h3⟩, h4⟩⟩
  refine ⟨a.2, b.2, ?_, ?_, h3, h4⟩
  · rw [← h1]; exact ha
  · rw [← h2]; exact hb

theorem flowDeps_schedBefore (sink src kill sched : UnionMap) (q p : Point)
    (h : (q, p) ∈ flowDeps sink src kill sched) : schedBefore sched q p = true := by
  simp only [flowDeps, List.mem_flatMap, List.mem_map, List.mem_filter,
    Bool.and_eq_true, decide_eq_true_eq] at h
  rcases h with ⟨w, hw, r, ⟨hr, ⟨⟨hcond1, hcond2⟩, hcond3⟩⟩, heq⟩
  have hq : w.1 = q := congrArg Prod.fst heq
  have hp : r.1 = p := congrArg Prod.snd heq
  rw [← hq, ← hp]
  exact hcond2

theorem isFunctional_eq (m : UnionMap) (h : isFunctional m = true) :
    ∀ a t1 t2 : Point, (a, t1) ∈ m → (a, t2) ∈ m → t1 = t2 := by
  intro a t1 t2 h1 h2
  simp only [isFunctional, List.all_eq_true] at h
  have := h (a, t1) h1 (a, t2) h2
  simpa using this

theorem getDependencesSt_some (r w ww : UnionMap) (k : Nat) :
    getDependencesSt (DepState.mk (some r) (some w) (some ww)) k =
      some ((([] ++ (if k &&& TYPE_RAW ≠ 0 then r else [])) ++
        (if k &&& TYPE_WAR ≠ 0 then w else [])) ++
        (if k &&& TYPE_WAW ≠ 0 then ww else [])) := by
  by_cases h1 : k &&& TYPE_RAW ≠ 0 <;> by_cases h2 : k &&& TYPE_WAR ≠ 0 <;>
    by_cases h3 : k &&& TYPE_WAW ≠ 0 <;>
      simp [getDependencesSt, unionO, coalesce, detectEqualities, h1, h2, h3]

theorem getDependencesSt_all (r w ww : UnionMap) :
    getDependencesSt (DepState.mk (some r) (some w) (some ww)) TYPE_ALL =
      some (r ++ w ++ ww) := by
  rw [getDependencesSt_some]
  simp [TYPE_ALL, TYPE_RAW, TYPE_WAR, TYPE_WAW]

theorem getDependencesSt_released (k : Nat) :
    getDependencesSt (DepState.mk none none none) k = none := by
  by_cases h1 : k &&& TYPE_RAW ≠ 0 <;> by_cases h2 : k &&& TYPE_WAR ≠ 0 <;>
    by_cases h3 : k &&& TYPE_WAW ≠ 0 <;>
      simp [getDependencesSt, unionO, h1, h2, h3]

/-! ## Concrete scops used as inputs for witnesses and counterexamples

exS is the recurrence example of the spec at size 2: one statement S over a
two-deep loop nest, instance (0,0) must-writes A[0] and instance (1,0) reads
A[0], scheduled by the identity scattering into the two-dimensional space
named scat.  Its RAW cache is the single pair ((0,0) writes, (1,0) reads). -/

def pS00 : Point := Point.mk "S" [0, 0]

def pS10 : Point := Point.mk "S" [1, 0]

def pA0 : Point := Point.mk "A" [0]

def tS00 : Point := Point.mk "scat" [0, 0]

def tS10 : Point := Point.mk "scat" [1, 0]

def exWriteAcc : MemAccess := MemAccess.mk AccKind.mustWrite [(pS00, pA0)]

def exReadAcc : MemAccess := MemAccess.mk AccKind.read [(pS10, pA0)]

def exScat : IslMap := IslMap.mk "scat" 2 [(pS00, tS00), (pS10, tS10)]

def exStmt : ScopStmt := ScopStmt.mk "S" [pS00, pS10] [exWriteAcc, exReadAcc] exScat ["n"]

def exS : Scop := Scop.mk ["n"] [exStmt]

def exInit : DepState := DepState.mk none none none

def exComputed : DepState := runOnScopState exS exInit

/-- A candidate schedule override reversing the execution order of the two
instances of exS. -/
def revScat : IslMap := IslMap.mk "scat" 2 [(pS00, tS10), (pS10, tS00)]

def revCand : List (String × IslMap) := [("S", revScat)]

/-- The scheduling-space subset (anonymous space, after the depth-2 schedule
projection) enclosing both instances of exS, as passed by isParallelFor. -/
def exDom : UnionSet := [Point.mk "" [0, 0], Point.mk "" [1, 0]]

/-- A one-statement scop whose only access is a may-write with a nonempty
access relation. -/
def q0 : Point := Point.mk "S" [0]

def qA : Point := Point.mk "A" [0]

def mayAcc : MemAccess := MemAccess.mk AccKind.mayWrite [(q0, qA)]

def cx1Stmt : ScopStmt :=
  ScopStmt.mk "S" [q0] [mayAcc] (IslMap.mk "scat" 1 [(q0, Point.mk "scat" [0])]) []

def cx1 : Scop := Scop.mk [] [cx1Stmt]

/-- exS with the statement's relations annotated as referring to parameter
space m while the scop's shared parameter space is n. -/
def cx5Stmt : ScopStmt := ScopStmt.mk "S" [pS00, pS10] [exWriteAcc, exReadAcc] exScat ["m"]

def cx5 : Scop := Scop.mk ["n"] [cx5Stmt]

theorem lexNonPosB_replicate_zero (n : Nat) : lexNonPosB (List.replicate n 0) = true := by
  induction n with
  | zero => rfl
  | succ k ih => simp [List.replicate, lexNonPosB, ih]

theorem scatteringUnionOf_nil (S : Scop) :
    scatteringUnionOf S [] = (collectInfo S).schedule := by
  unfold scatteringUnionOf completedScats collectInfo
  simp [List.flatMap_map, List.lookup]

/-! ## Claim theorems -/

/-- C8: when the process-wide legality-check-disable option is set,
isValidScattering returns true for every candidate schedule, and the verdict
does not depend on the dependence cache at all. -/
theorem legality_disabled_always_true (S : Scop) (cand : List (String × IslMap))
    (s t : DepState) :
    isValidScattering true S cand s = true ∧
    isValidScattering true S cand s = isValidScattering true S cand t :=
  ⟨rfl, rfl⟩

/-- C10: on a computed cache, getDependences with a kind mask selecting none
of RAW, WAR, WAW returns the empty dependence relation (built in the cache's
space), not a failure. -/
theorem getDependences_empty_mask (r w ww : UnionMap) (k : Nat)
    (h1 : k &&& TYPE_RAW = 0) (h2 : k &&& TYPE_WAR = 0) (h3 : k &&& TYPE_WAW = 0) :
    getDependencesSt (DepState.mk (some r) (some w) (some ww)) k = some [] := by
  rw [getDependencesSt_some]
  simp [h1, h2, h3]

/-- Witness for C10 at mask 0 on a concrete computed cache. -/
theorem getDependences_empty_mask_witness :
    getDependencesSt (DepState.mk (some [(pS00, pS10)]) (some []) (some [])) 0 = some [] :=
  getDependences_empty_mask [(pS00, pS10)] [] [] 0 rfl rfl rfl

/-- C9: getDependences is a read-only query: it leaves the cache unchanged, a
repeated call returns the same (hence set-equal) relation, and the returned
relation is exactly the union of the requested cached kinds (re-simplified by
coalesce and detect_equalities, both set-preserving). -/
theorem getDependences_union_and_idempotent (r w ww : UnionMap) (k : Nat) :
    (getDependencesRun (DepState.mk (some r) (some w) (some ww)) k).2 =
        DepState.mk (some r) (some w) (some ww) ∧
    (getDependencesRun ((getDependencesRun (DepState.mk (some r) (some w) (some ww)) k).2) k).1 =
        (getDependencesRun (DepState.mk (some r) (some w) (some ww)) k).1 ∧
    ∃ d : UnionMap, getDependencesSt (DepState.mk (some r) (some w) (some ww)) k = some d ∧
      ∀ p : Point × Point, p ∈ d ↔
        ((k &&& TYPE_RAW ≠ 0 ∧ p ∈ r) ∨ (k &&& TYPE_WAR ≠ 0 ∧ p ∈ w) ∨
          (k &&& TYPE_WAW ≠ 0 ∧ p ∈ ww)) := by
  refine ⟨rfl, rfl, ?_⟩
  refine ⟨_, getDependencesSt_some r w ww k, ?_⟩
  intro p
  by_cases h1 : k &&& TYPE_RAW ≠ 0 <;> by_cases h2 : k &&& TYPE_WAR ≠ 0 <;>
    by_cases h3 : k &&& TYPE_WAW ≠ 0 <;> simp [h1, h2, h3]

/-- C7: in every externally observable state of the pass (initial state, after
runOnScop which clears then recomputes, after releaseMemory, after any
getDependences query) the cache holds either none of RAW, WAR, WAW or all
three; a partial cache is never exposed. -/
theorem cache_all_or_none (s : DepState) (h : Reachable s) :
    (s.raw = none ∧ s.war = none ∧ s.waw = none) ∨
    (∃ a b c : UnionMap, s.raw = some a ∧ s.war = some b ∧ s.waw = some c) := by
  induction h with
  | init => exact Or.inl ⟨rfl, rfl, rfl⟩
  | run S s0 _ _ => exact Or.inr ⟨_, _, _, rfl, rfl, rfl⟩
  | release s0 _ _ => exact Or.inl ⟨rfl, rfl, rfl⟩
  | query s0 k _ ih => exact ih

/-- Witness for C7 at the initial state. -/
theorem cache_all_or_none_witness :
    ((DepState.mk none none none).raw = none ∧ (DepState.mk none none none).war = none ∧
      (DepState.mk none none none).waw = none) ∨
    (∃ a b c : UnionMap, (DepState.mk none none none).raw = some a ∧
      (DepState.mk none none none).war = some b ∧ (DepState.mk none none none).waw = some c) :=
  cache_all_or_none (DepState.mk none none none) Reachable.init

/-- C6 amended: a query on an invalidated (released, not recomputed) cache
never auto-recomputes; getDependences propagates the engine's NULL value,
while isLegal and isParallel silently return true, the error value of the
final emptiness test converted to bool -- indistinguishable from a successful
verdict. -/
theorem stale_cache_query_behaviour (S : Scop) (cand : List (String × IslMap))
    (dom : UnionSet) (d k : Nat) :
    getDependencesSt (DepState.mk none none none) k = none ∧
    isValidScattering false S cand (DepState.mk none none none) = true ∧
    isParallelDimension S (DepState.mk none none none) dom d = true := by
  refine ⟨getDependencesSt_released k, rfl, rfl⟩

/-- C6 counterexample: on exS the reversing candidate is rejected against the
computed cache, but after releaseMemory the same query silently answers true
(the success verdict) instead of failing explicitly or recomputing. -/
theorem stale_cache_silent_true_cex :
    isValidScattering false exS revCand exComputed = false ∧
    isValidScattering false exS revCand (releaseMemoryState exComputed) = true ∧
    getDependencesSt (releaseMemoryState exComputed) TYPE_ALL = none ∧
    isParallelDimension exS (releaseMemoryState exComputed) exDom 1 = true := by
  refine ⟨by decide, by decide, by decide, by decide⟩

/-- C5 amended: compute performs no symbolic-parameter-space unification check
and has no failure outcome: its result is invariant under arbitrary
reassignment of the scop's and the statements' parameter-space annotations,
so the dataflow engine is invoked on the relations unchanged even when the
spaces mismatch. -/
theorem calculateDependences_ignores_param_spaces (S : Scop) (ps : List String)
    (g : ScopStmt → List String) :
    calculateDependences (setParamSpaces S ps g) = calculateDependences S := by
  unfold calculateDependences collectInfo setParamSpaces
  simp [List.flatMap_map, setStmtParams]

/-- C5 counterexample: cx5 has a statement whose relations reference parameter
space m while the scop's space is n; compute does not fail but runs the
dataflow and returns a populated cache. -/
theorem calculateDependences_mismatch_cex :
    hasSpaceMismatch cx5 = true ∧
    (calculateDependences cx5).1 = [(pS00, pS10)] ∧
    (calculateDependences cx5).1 ≠ [] := by
  refine ⟨by decide, by decide, by decide⟩

/-- C1 amended: collectInfo builds the Read union from the read accesses and
the Write union from ALL write accesses (must-writes and may-writes alike),
each access relation intersected with its statement's iteration domain and
unioned across statements; the MayWrite union is created empty and never
populated; Schedule is the union of the statements' scatterings; and the
dataflow invocation that yields RAW receives the Write union as its
must-sources and the (empty) MayWrite union as its may-sources, ordered by
Schedule. -/
theorem collectInfo_builds_unions (S : Scop) :
    (∀ p : Point × Point, p ∈ (collectInfo S).read ↔
      ∃ st ∈ S.stmts, ∃ a ∈ st.accesses, a.kind = AccKind.read ∧
        p ∈ a.accessRelation ∧ p.1 ∈ st.domain) ∧
    (∀ p : Point × Point, p ∈ (collectInfo S).write ↔
      ∃ st ∈ S.stmts, ∃ a ∈ st.accesses, ¬a.kind = AccKind.read ∧
        p ∈ a.accessRelation ∧ p.1 ∈ st.domain) ∧
    (collectInfo S).mayWrite = [] ∧
    (∀ p : Point × Point, p ∈ (collectInfo S).schedule ↔
      ∃ st ∈ S.stmts, p ∈ st.scattering.pairs) ∧
    (calculateDependences S).1 = coalesce (computeFlow (collectInfo S).read (collectInfo S).write
      (collectInfo S).mayWrite (collectInfo S).schedule).1 := by
  refine ⟨?_, ?_, rfl, ?_, rfl⟩
  · intro p
    simp only [collectInfo, List.mem_flatMap, List.mem_filter, mem_intersectDomain,
      MemAccess.isRead, decide_eq_true_eq]
    constructor
    · rintro ⟨st, hst, a, ⟨ha, hk⟩, hp, hd⟩
      exact ⟨st, hst, a, ha, hk, hp, hd⟩
    · rintro ⟨st, hst, a, ha, hk, hp, hd⟩
      exact ⟨st, hst, a, ⟨ha, hk⟩, hp, hd⟩
  · intro p
    simp only [collectInfo, List.mem_flatMap, List.mem_filter, mem_intersectDomain,
      MemAccess.isRead, Bool.not_eq_true', decide_eq_false_iff_not]
    constructor
    · rintro ⟨st, hst, a, ⟨ha, hk⟩, hp, hd⟩
      exact ⟨st, hst, a, ha, hk, hp, hd⟩
    · rintro ⟨st, hst, a, ha, hk, hp, hd⟩
      exact ⟨st, hst, a, ⟨ha, hk⟩, hp, hd⟩
  · intro p
    simp [collectInfo, List.mem_flatMap]

/-- C1 counterexample: in cx1 the sole access is a may-write with a nonempty
domain-intersected relation, yet the MayWrite union stays empty and the
may-write access lands in the Write union instead. -/
theorem collectInfo_maywrite_empty_cex :
    mayAcc.kind = AccKind.mayWrite ∧
    intersectDomain mayAcc.accessRelation cx1Stmt.domain = [(q0, qA)] ∧
    (collectInfo cx1).mayWrite = [] ∧
    (q0, qA) ∈ (collectInfo cx1).write := by
  refine ⟨rfl, by decide, rfl, by decide⟩

theorem allRangeIn_spec (m : UnionMap) (sp : String) (n : Nat)
    (h : allRangeIn m sp n = true) :
    ∀ pr ∈ m, pr.2.space = sp ∧ pr.2.coords.length = n := by
  intro pr hpr
  simp only [allRangeIn, List.all_eq_true] at h
  simpa using h pr hpr

theorem legalityDeltas_space (S : Scop) (cand : List (String × IslMap)) (D : UnionMap)
    (sp : String) (n : Nat) (hws : allRangeIn (scatteringUnionOf S cand) sp n = true) :
    ∀ p ∈ legalityDeltas S cand D, p.space = sp ∧ p.coords.length = n := by
  intro p hp
  rw [legalityDeltas] at hp
  rcases (mem_deltas _ _).1 hp with ⟨⟨a, b⟩, hpr, hsp2, hlen2, rfl⟩
  obtain ⟨t, h1, h2⟩ := (mem_applyRange _ _ a b).1 hpr
  obtain ⟨q, hq1, hq2⟩ := (mem_applyDomain _ _ a t).1 h1
  have hb := allRangeIn_spec _ _ _ hws (t, b) h2
  have ha := allRangeIn_spec _ _ _ hws (q, a) hq2
  refine ⟨ha.1, ?_⟩
  simp only [List.length_zipWith]
  simp [ha.2, hb.2]

/-- C3: on a computed cache (and disabled flag off), isValidScattering accepts
a candidate iff the set of per-pair time deltas of the cached dependences
under the completed schedule contains no lexicographically non-positive
vector; in particular a zero delta forces rejection.  The hypotheses say the
completed scatterings all map into the scattering space the check extracts
(the shared logical-time space of the scop). -/
theorem isValidScattering_iff_no_nonpositive_delta (S : Scop)
    (cand : List (String × IslMap)) (r w ww : UnionMap) (sp : String) (n : Nat)
    (hsp : scatSpaceOf S cand = some (sp, n))
    (hws : allRangeIn (scatteringUnionOf S cand) sp n = true) :
    (isValidScattering false S cand (DepState.mk (some r) (some w) (some ww)) = true ↔
      ∀ p ∈ legalityDeltas S cand (r ++ w ++ ww), lexNonPosB p.coords = false) ∧
    (Point.mk sp (List.replicate n 0) ∈ legalityDeltas S cand (r ++ w ++ ww) →
      isValidScattering false S cand (DepState.mk (some r) (some w) (some ww)) = false) := by
  have hall := legalityDeltas_space S cand (r ++ w ++ ww) sp n hws
  have hext : extractSet (legalityDeltas S cand (r ++ w ++ ww)) sp n =
      legalityDeltas S cand (r ++ w ++ ww) := by
    rw [extractSet, List.filter_eq_self]
    intro p hp
    rcases hall p hp with ⟨h1, h2⟩
    simp [h1, h2]
  have hmain : isValidScattering false S cand (DepState.mk (some r) (some w) (some ww)) =
      !((legalityDeltas S cand (r ++ w ++ ww)).any
        (fun p => lexLe p.coords (List.replicate n 0))) := by
    unfold isValidScattering
    rw [getDependencesSt_all, hsp]
    simp only [Bool.false_eq_true, if_false]
    rw [hext]
  have hlen : ∀ p ∈ legalityDeltas S cand (r ++ w ++ ww),
      lexLe p.coords (List.replicate n 0) = lexNonPosB p.coords := by
    intro p hp
    rcases hall p hp with ⟨_, h2⟩
    rw [← h2, lexLe_replicate_zero]
  constructor
  · rw [hmain, Bool.not_eq_true']
    constructor
    · intro h p hp
      have h2 : ¬ ((fun p : Point => lexLe p.coords (List.replicate n 0)) p = true) := by
        intro hcon
        have : (legalityDeltas S cand (r ++ w ++ ww)).any
            (fun p => lexLe p.coords (List.replicate n 0)) = true :=
          List.any_eq_true.2 ⟨p, hp, hcon⟩
        rw [h] at this
        exact Bool.false_ne_true this
      rw [← hlen p hp]
      exact Bool.not_eq_true _ ▸ (Bool.eq_false_iff.2 h2)
    · intro h
      rw [Bool.eq_false_iff]
      intro hcon
      rcases List.any_eq_true.1 hcon with ⟨p, hp, hple⟩
      have := h p hp
      rw [← hlen p hp] at this
      rw [hple] at this
      exact absurd this (by decide)
  · intro hz
    rw [hmain, Bool.not_eq_false']
    refine List.any_eq_true.2 ⟨_, hz, ?_⟩
    rw [hlen _ hz]
    exact lexNonPosB_replicate_zero n

/-- Witness for C3 on exS with the empty candidate and its computed cache. -/
theorem isValidScattering_iff_witness :
    scatSpaceOf exS [] = some ("scat", 2) ∧
    allRangeIn (scatteringUnionOf exS []) "scat" 2 = true ∧
    (isValidScattering false exS [] (DepState.mk (some [(pS00, pS10)]) (some []) (some [])) = true ↔
      ∀ p ∈ legalityDeltas exS [] ([(pS00, pS10)] ++ [] ++ []),
        lexNonPosB p.coords = false) :=
  ⟨rfl, by decide,
    (isValidScattering_iff_no_nonpositive_delta exS [] [(pS00, pS10)] [] [] "scat" 2 rfl
      (by decide)).1⟩

theorem calculateDependences_mem_schedBefore (S : Scop) (q t : Point)
    (h : (q, t) ∈ (calculateDependences S).1 ∨ (q, t) ∈ (calculateDependences S).2.1 ∨
      (q, t) ∈ (calculateDependences S).2.2) :
    schedBefore (collectInfo S).schedule q t = true := by
  simp only [calculateDependences, computeFlow, coalesce] at h
  rcases h with h | h | h <;> exact flowDeps_schedBefore _ _ _ _ _ _ h

/-- C4: after a successful runOnScop (cache computed under the current
schedules), isValidScattering on the empty candidate -- every statement keeps
its current schedule -- returns true.  The hypothesis states that the
combined current schedule is an affine function of the instances
(single-valued), as every scattering of the Scop Model is. -/
theorem isValidScattering_reflexivity (S : Scop) (s0 : DepState)
    (hf : isFunctional (collectInfo S).schedule = true) :
    isValidScattering false S [] (runOnScopState S s0) = true := by
  show isValidScattering false S []
    (DepState.mk (some (calculateDependences S).1) (some (calculateDependences S).2.1)
      (some (calculateDependences S).2.2)) = true
  unfold isValidScattering
  rw [getDependencesSt_all]
  cases hsp : scatSpaceOf S [] with
  | none => rfl
  | some spn =>
    simp only [Bool.false_eq_true, if_false]
    rw [Bool.not_eq_true']
    rw [Bool.eq_false_iff]
    intro hcon
    rcases List.any_eq_true.1 hcon with ⟨p, hp, hple⟩
    rcases (mem_extractSet _ _ _ _).1 hp with ⟨hpd, hps, hpl⟩
    rw [legalityDeltas] at hpd
    rcases (mem_deltas _ _).1 hpd with ⟨⟨a, b⟩, hpr, hsp2, hlen2, rfl⟩
    obtain ⟨t, h1, h2⟩ := (mem_applyRange _ _ a b).1 hpr
    obtain ⟨q, hq1, hq2⟩ := (mem_applyDomain _ _ a t).1 h1
    rw [scatteringUnionOf_nil] at h2 hq2
    have hqt : schedBefore (collectInfo S).schedule q t = true := by
      refine calculateDependences_mem_schedBefore S q t ?_
      rcases List.mem_append.1 hq1 with hh | hh
      · rcases List.mem_append.1 hh with hh2 | hh2
        · exact Or.inl hh2
        · exact Or.inr (Or.inl hh2)
      · exact Or.inr (Or.inr hh)
    obtain ⟨tq, tp, htq, htp, hspc2, hlt⟩ := schedBefore_spec _ _ _ hqt
    have ha : a = tq := isFunctional_eq _ hf q a tq hq2 htq
    have hb : b = tp := isFunctional_eq _ hf t b tp h2 htp
    subst ha
    subst hb
    have hfin : lexNonPosB (List.zipWith (fun x y => x - y) b.coords a.coords) = false :=
      lexLt_delta_not_nonpos a.coords b.coords hlt
    simp only at hple hpl
    rw [← hpl, lexLe_replicate_zero] at hple
    rw [hfin] at hple
    exact absurd hple (by decide)

/-- Witness for C4 on exS. -/
theorem isValidScattering_reflexivity_witness :
    isFunctional (collectInfo exS).schedule = true ∧
    isValidScattering false exS [] (runOnScopState exS exInit) = true :=
  ⟨by decide, isValidScattering_reflexivity exS exInit (by decide)⟩

theorem take_all_zero_iff : ∀ (l : List Int) (k : Nat), k ≤ l.length →
    (((l.take k).all (fun x => decide (x = 0))) = true ↔ ∀ i, i < k → l.getD i 0 = 0) := by
  intro l
  induction l with
  | nil =>
    intro k hk
    have hz : k = 0 := Nat.le_zero.1 hk
    subst hz
    simp
  | cons x xs ih =>
    intro k hk
    cases k with
    | zero => simp
    | succ k0 =>
      have hk2 : k0 ≤ xs.length := by simpa using hk
      simp only [List.take, List.all_cons, Bool.and_eq_true, decide_eq_true_eq]
      rw [ih k0 hk2]
      constructor
      · rintro ⟨h0, hrest⟩ i hi
        cases i with
        | zero => simpa using h0
        | succ i0 =>
          rw [List.getD_cons_succ]
          exact hrest i0 (Nat.lt_of_succ_lt_succ hi)
      · intro h
        refine ⟨by simpa using h 0 (Nat.succ_pos k0), ?_⟩
        intro i hi
        have h3 := h (i + 1) (Nat.succ_lt_succ hi)
        rwa [List.getD_cons_succ] at h3

theorem all_zero_iff (l : List Int) :
    (l.all (fun x => decide (x = 0)) = true ↔ ∀ i, i < l.length → l.getD i 0 = 0) := by
  have h := take_all_zero_iff l l.length (Nat.le_refl _)
  rwa [List.take_length] at h

theorem invalidDistance_false_iff (d : Nat) (p : Point) :
    invalidDistance d p = false ↔
      p.space = "" ∧ p.coords.length = d ∧
      ((∀ i, i < d - 1 → p.coords.getD i 0 = 0) → ∀ i, i < d → p.coords.getD i 0 = 0) := by
  unfold invalidDistance
  by_cases h1 : p.space = ""
  · by_cases h2 : p.coords.length = d
    · rw [if_pos (by simp [h1, h2])]
      simp only [h1, h2, true_and]
      have hbool : ∀ X Y : Bool, ((X && !Y) = false ↔ (X = true → Y = true)) := by decide
      rw [hbool]
      rw [take_all_zero_iff p.coords (d - 1) (by omega), all_zero_iff, h2]
    · rw [if_neg (by simp [h2])]
      simp [h2]
  · rw [if_neg (by simp [h1])]
    simp [h1]

/-- C2 amended: on a computed cache and positive depth, isParallelDimension
returns true iff every distance vector of the restricted, depth-truncated
dependence deltas lies in the anonymous depth-dimensional scheduling space
and satisfies: if its first depth-1 coordinates are all zero then it is the
zero vector.  So only dependences carried exactly by the tested (last)
dimension block parallelism; a delta with a nonzero coordinate at an index
below depth-1 is carried by an outer loop and does NOT make the check fail. -/
theorem isParallelDimension_iff_no_carried_delta (S : Scop) (r w ww : UnionMap)
    (dom : UnionSet) (d : Nat) (hd : 0 < d) :
    isParallelDimension S (DepState.mk (some r) (some w) (some ww)) dom d = true ↔
      ∀ p ∈ parallelDeltas S (r ++ w ++ ww) dom d,
        p.space = "" ∧ p.coords.length = d ∧
        ((∀ i, i < d - 1 → p.coords.getD i 0 = 0) → ∀ i, i < d → p.coords.getD i 0 = 0) := by
  unfold isParallelDimension
  rw [getDependencesSt_all]
  show ((parallelDeltas S (r ++ w ++ ww) dom d).filter
    (fun p => invalidDistance d p)).isEmpty = true ↔ _
  rw [List.isEmpty_iff, List.filter_eq_nil_iff]
  constructor
  · intro h p hp
    have h2 := h p hp
    rw [Bool.not_eq_true] at h2
    exact (invalidDistance_false_iff d p).1 h2
  · intro h p hp
    rw [Bool.not_eq_true]
    exact (invalidDistance_false_iff d p).2 (h p hp)

/-- Witness for C2 on exS at depth 2 with its computed cache. -/
theorem isParallelDimension_iff_witness :
    (0 : Nat) < 2 ∧
    (isParallelDimension exS (DepState.mk (some [(pS00, pS10)]) (some []) (some [])) exDom 2 =
        true ↔
      ∀ p ∈ parallelDeltas exS ([(pS00, pS10)] ++ [] ++ []) exDom 2,
        p.space = "" ∧ p.coords.length = 2 ∧
        ((∀ i, i < 2 - 1 → p.coords.getD i 0 = 0) → ∀ i, i < 2 → p.coords.getD i 0 = 0)) :=
  ⟨by decide,
    isParallelDimension_iff_no_carried_delta exS [(pS00, pS10)] [] [] exDom 2 (by decide)⟩

/-- C2 counterexample: on exS the computed cache yields the distance vector
(1, 0) at depth 2 -- nonzero at coordinate 0, which is below depth-1 -- yet
isParallelDimension returns true, contradicting the claim that every such
delta forces a false verdict. -/
theorem isParallelDimension_outer_delta_cex :
    getDependencesSt (runOnScopState exS exInit) TYPE_ALL = some [(pS00, pS10)] ∧
    Point.mk "" [1, 0] ∈ parallelDeltas exS [(pS00, pS10)] exDom 2 ∧
    (Point.mk "" [1, 0]).coords.getD 0 0 ≠ 0 ∧ (0 : Nat) < 2 - 1 ∧
    isParallelDimension exS (runOnScopState exS exInit) exDom 2 = true := by
  refine ⟨by decide, by decide, by decide, by decide, by decide⟩
